import Mathlib

/-!
Verification development for the records-retention-schedule extraction
pipeline (field normalizer, quality scorer, strategy arbiter, layout
segmenter, table extractor).

Text is modelled as `List Char` over the ASCII fragment the pipeline
actually processes.  Each regular expression appearing in the source is
embedded as an executable matcher specialised to that concrete pattern,
scanning positions left to right exactly as `re.search` does (leftmost
match, alternatives tried in order at each position, greedy repetition
where backtracking cannot change the outcome for the given pattern).
Coordinates of positioned words are modelled as rationals: the layout
code only compares them and subtracts constants, both of which are
order-faithful.
-/

namespace RecordsMgmt

abbrev Str := List Char

/-- Whitespace test matching Python's `\s` / `str.strip` on ASCII:
space, tab, newline, carriage return, vertical tab, form feed. -/
def isWS (c : Char) : Bool :=
  c = ' ' || c = '\t' || c = '\n' || c = '\r' || c.toNat = 11 || c.toNat = 12

/-- Word-character test matching Python's `\b` boundary class on ASCII:
letters, digits and underscore. -/
def isWordChar (c : Char) : Bool :=
  c.isAlphanum || c = '_'

/-- Code point after lowercasing an ASCII letter; used for
case-insensitive comparison. -/
def lowerCode (c : Char) : Nat :=
  if 65 ≤ c.toNat ∧ c.toNat ≤ 90 then c.toNat + 32 else c.toNat

/-- Case-insensitive character equality (ASCII). -/
def eqCI (a b : Char) : Bool :=
  lowerCode a == lowerCode b

/-- Case-insensitive: `pat` is a prefix of the text. Models
`text.lower().startswith(pat.lower())` and literal matching at a
position inside a case-insensitive regex. -/
def ciLeads : Str → Str → Bool
  | [], _ => true
  | _ :: _, [] => false
  | p :: ps, t :: ts => eqCI p t && ciLeads ps ts

/-- Case-insensitive substring test; models Python `pat in s.lower()`
with a lowercase pattern, and `re.search` of a bare literal. -/
def containsCI (pat : Str) : Str → Bool
  | [] => ciLeads pat []
  | c :: r => ciLeads pat (c :: r) || containsCI pat r

/-- Case-sensitive substring test; models Python `pat in s`. -/
def containsStr (pat : Str) : Str → Bool
  | [] => pat.isPrefixOf []
  | c :: r => pat.isPrefixOf (c :: r) || containsStr pat r

/-- Python `str.strip()`. -/
def trimWS (s : Str) : Str :=
  ((s.dropWhile isWS).reverse.dropWhile isWS).reverse

/-- Accumulator pass collecting maximal whitespace-free tokens; `acc`
holds the current token reversed. -/
def splitWSGo (acc : Str) : Str → List Str
  | [] => if acc.isEmpty then [] else [acc.reverse]
  | c :: r =>
    if isWS c then
      if acc.isEmpty then splitWSGo [] r else acc.reverse :: splitWSGo [] r
    else splitWSGo (c :: acc) r

/-- Maximal whitespace-free tokens of a string, in order. -/
def splitWS (s : Str) : List Str :=
  splitWSGo [] s

/-- Python `re.sub(r'\s+', ' ', s).strip()`: collapse internal runs of
whitespace to single spaces and trim. -/
def normSpace (s : Str) : Str :=
  List.intercalate [' '] (splitWS s)

/-- Python `str.title()` on ASCII: a letter is uppercased when the
previous character is not a letter, otherwise lowercased. -/
def pyTitleGo : Bool → Str → Str
  | _, [] => []
  | prevAlpha, c :: r =>
    (if c.isAlpha then (if prevAlpha then c.toLower else c.toUpper) else c) ::
      pyTitleGo c.isAlpha r

def pyTitle (s : Str) : Str := pyTitleGo false s

/-- Capitalize only the first character (`_cap_first` in the Ohio
pipeline). -/
def capFirst : Str → Str
  | [] => []
  | c :: r => c.toUpper :: r

/-- Numeric value of a digit string, as `int()` computes it. -/
def natOfDigits (ds : Str) : Nat :=
  ds.foldl (fun acc c => acc * 10 + (c.toNat - 48)) 0

/-- Remove the substring `s[i : i+len]`. -/
def excise (s : Str) (i len : Nat) : Str :=
  s.take i ++ s.drop (i + len)

/-- Case-insensitive full-string equality. -/
def eqCIList : Str → Str → Bool
  | [], [] => true
  | a :: as, b :: bs => eqCI a b && eqCIList as bs
  | _, _ => false

/-- Leftmost match of an end-anchored literal alternation
`(alt1|alt2|...)$` (case-insensitive): the first position whose whole
remaining suffix equals one of the alternatives.  Returns the start
index and the matched slice in its original case. -/
def findEndAltGo (alts : List Str) : Nat → Str → Option (Nat × Str)
  | i, [] => if alts.any (fun a => eqCIList [] a) then some (i, ([] : Str)) else none
  | i, c :: r =>
    if alts.any (fun a => eqCIList (c :: r) a) then some (i, c :: r)
    else findEndAltGo alts (i + 1) r

/-- Word boundary after a literal that ends in a word character: next
character absent or not a word character. -/
def wbAfter : Str → Bool
  | [] => true
  | c :: _ => !isWordChar c

/-- Try each alternative (each starting and ending with a word
character) at the current position, in order; the boundary before the
position is checked by the caller. -/
def tryAltsWB (alts : List Str) (t : Str) : Option Str :=
  alts.findSome? fun a =>
    if ciLeads a t && wbAfter (t.drop a.length) then some (t.take a.length) else none

/-- Leftmost match of `\b(alt1|alt2|...)\b` (case-insensitive), as in
`re.search`.  Returns start index and matched slice in original case. -/
def findWBGo (alts : List Str) : Nat → Bool → Str → Option (Nat × Str)
  | _, _, [] => none
  | i, prevOk, c :: r =>
    match (if prevOk then tryAltsWB alts (c :: r) else none) with
    | some m => some (i, m)
    | none => findWBGo alts (i + 1) (!isWordChar c) r

def findWB (alts : List Str) (s : Str) : Option (Nat × Str) :=
  findWBGo alts 0 true s

/-- Remove one trailing character among `.,;:` then strip; models
`re.sub(r'[\.,;:]$', '', s).strip()`. -/
def subTrailPunct (s : Str) : Str :=
  match s.getLast? with
  | some c => if c = '.' || c = ',' || c = ';' || c = ':' then s.dropLast else s
  | none => s

def cleanPunct (s : Str) : Str :=
  trimWS (subTrailPunct s)

/-- Match of `year` after the digits: with `ci = true` this is
`year` under `re.IGNORECASE`; with `ci = false` it is the literal
`[Yy]ear` (only the first letter is case-flexible). -/
def yearAfter (ci : Bool) (t : Str) : Bool :=
  if ci then ciLeads ("year".toList) t
  else
    match t with
    | c :: r => (c = 'y' || c = 'Y') && ("ear".toList.isPrefixOf r)
    | [] => false

/-- Leftmost match of `(\d+)\s*year` (the `\d+` run is maximal; a
shorter run cannot succeed since the next character would still be a
digit), returning the numeric value of the digit group. -/
def findDigitYearGo (ci : Bool) : Str → Option Nat
  | [] => none
  | c :: r =>
    if c.isDigit then
      let ds := (c :: r).takeWhile Char.isDigit
      let rest := ((c :: r).drop ds.length).dropWhile isWS
      if yearAfter ci rest then some (natOfDigits ds) else findDigitYearGo ci r
    else findDigitYearGo ci r

/-- Record schema shared by the normalizer, scorer and arbiter.  Only
the fields the verified logic reads or writes are modelled; static
metadata (state, schedule id, dates) plays no role in any claim. -/
structure Rec where
  series_id : Str
  series_title : Str
  series_description : Str
  retention_statement : Str
  disposition : Str
  retention_years : Option Int
  confidential : Bool
  legal_citation : Str
deriving DecidableEq, Repr

/-- Alternatives of the end-anchored disposition regex in the Virginia
`clean_record_fields`, in source order. -/
def vaDispAlts : List Str :=
  ["Non-confidential Destruction".toList, "Confidential Destruction".toList,
   "Permanent, Archives".toList, "Permanent, In Agency".toList,
   "Archives".toList, "Destruction".toList]

/-- Alternatives of `\b(Non-confidential|Confidential)\b`. -/
def confAlts : List Str :=
  ["Non-confidential".toList, "Confidential".toList]

/-- One iteration of the Virginia keyword loop: pluck a drifted
`Destruction` / `Archives` out of the retention text and append it to
the disposition, when the keyword occurs word-bounded in retention and
is not already in the disposition. -/
def kwStep (kw : Str) (rd : Str × Str) : Str × Str :=
  match findWB [kw] rd.1 with
  | some (i, m) =>
    if containsCI kw rd.2 then rd
    else (normSpace (excise rd.1 i m.length), trimWS (rd.2 ++ ' ' :: kw))
  | none => rd

/-- One alternative of the Virginia citation regex of the shape
`\b\d+\s*KW.*`: a word-bounded digit run, optional whitespace, then the
keyword (the trailing `.*$` always succeeds). -/
def numKwAt (kw : Str) (t : Str) : Bool :=
  let ds := t.takeWhile Char.isDigit
  !ds.isEmpty && ciLeads kw ((t.drop ds.length).dropWhile isWS)

/-- Alternative of the shape `\bLIT\b.*`. -/
def litWBAt (lit : Str) (t : Str) : Bool :=
  ciLeads lit t && wbAfter (t.drop lit.length)

/-- All alternatives of the Virginia citation pattern
`(\b\d+\s*CFR.*|\b\d+\s*VAC.*|\bCode of Virginia\b.*|\bCOV\b.*|\b\d+\s*USC.*)$`
tried at one position. -/
def vaCitationAt (t : Str) : Bool :=
  numKwAt ("CFR".toList) t || numKwAt ("VAC".toList) t ||
    litWBAt ("Code of Virginia".toList) t || litWBAt ("COV".toList) t ||
    numKwAt ("USC".toList) t

/-- Leftmost start index of the Virginia citation pattern; every
alternative extends to the end of the string, so the index determines
the match. -/
def findCitationVAGo : Nat → Bool → Str → Option Nat
  | _, _, [] => none
  | i, prevOk, c :: r =>
    if prevOk && vaCitationAt (c :: r) then some i
    else findCitationVAGo (i + 1) (!isWordChar c) r

def findCitationVA (s : Str) : Option Nat :=
  findCitationVAGo 0 true s

/-- Retention-year derivation of the Virginia `clean_record_fields`:
the digit-year match wins, and both remaining branches yield null. -/
def vaRetentionYears (retention disposition : Str) : Option Int :=
  match findDigitYearGo false retention with
  | some n => some (Int.ofNat n)
  | none =>
    if containsCI ("permanent".toList) retention || containsCI ("permanent".toList) disposition then
      none
    else none

/-- Confidentiality rule shared by the Virginia and Ohio-general
normalizers: disposition contains `confidential` but not
`non-confidential`, case-insensitively. -/
def baseConfidentialFlag (disposition : Str) : Bool :=
  containsCI ("confidential".toList) disposition &&
    !containsCI ("non-confidential".toList) disposition

/-- Ohio-specific dialect: additionally confidential whenever the
disposition mentions `shred`. -/
def ohSpecConfidentialFlag (disposition : Str) : Bool :=
  (containsCI ("confidential".toList) disposition &&
      !containsCI ("non-confidential".toList) disposition) ||
    containsCI ("shred".toList) disposition

/-- Virginia `clean_record_fields` (identical in `va-pdfs.py` and
`va-gs-pdfs.py`): whitespace normalization, end-anchored disposition
split, confidentiality-modifier excision, keyword plucking, citation
extraction, retention years and the confidentiality flag. -/
def cleanRecordFieldsVA (record : Rec) : Rec :=
  let title := normSpace record.series_title
  let desc := normSpace record.series_description
  let retention := normSpace record.retention_statement
  let disposition := normSpace record.disposition
  let target := if disposition.isEmpty then retention else disposition
  let rd1 :=
    match findEndAltGo vaDispAlts 0 target with
    | some (i, m) =>
      if disposition.isEmpty then (trimWS (retention.take i), pyTitle m)
      else (retention, disposition)
    | none => (retention, disposition)
  let retention := rd1.1
  let disposition := rd1.2
  let rd2 :=
    match findWB confAlts retention with
    | some (i, m) =>
      let r2 := normSpace (excise retention i m.length)
      if ciLeads m disposition then (r2, disposition)
      else (r2, trimWS (pyTitle m ++ ' ' :: disposition))
    | none => (retention, disposition)
  let rd3 := kwStep ("Destruction".toList) rd2
  let rd4 := kwStep ("Archives".toList) rd3
  let retention := rd4.1
  let disposition := rd4.2
  let dc :=
    match findCitationVA desc with
    | some i => (cleanPunct (trimWS (desc.take i)), trimWS (desc.drop i))
    | none => (desc, ([] : Str))
  { record with
    series_title := title
    series_description := dc.1
    retention_statement := retention
    retention_years := vaRetentionYears retention disposition
    disposition := disposition
    confidential := baseConfidentialFlag disposition
    legal_citation := dc.2 }

/-- Word-to-number lexicon of the Ohio pipeline, in source order. -/
def WORD_TO_NUM : List (Str × Nat) :=
  [("one".toList, 1), ("two".toList, 2), ("three".toList, 3), ("four".toList, 4),
   ("five".toList, 5), ("six".toList, 6), ("seven".toList, 7), ("eight".toList, 8),
   ("nine".toList, 9), ("ten".toList, 10), ("eleven".toList, 11), ("twelve".toList, 12),
   ("fifteen".toList, 15), ("sixteen".toList, 16)]

/-- After a match of `permanentl`, the optional `y?` greedily consumes a
following `y` or `Y`. -/
def dropPermTail : Str → Str
  | [] => []
  | y :: rr => if eqCI y 'y' then rr else y :: rr

/-- Python `_PERMANENT_RE.sub('', s)` for the pattern `permanently?`
(case-insensitive): remove every non-overlapping leftmost match.  Note
the pattern requires the trailing `l`, so bare `permanent` is not a
match.  The fuel argument only bounds the recursion; every step
consumes at least one character, so starting it at the string length
makes the out-of-fuel branch unreachable. -/
def subPermanentGo : Nat → Str → Str
  | _, [] => []
  | 0, s => s
  | fuel + 1, c :: r =>
    if ciLeads ("permanentl".toList) (c :: r) then
      subPermanentGo fuel (dropPermTail (r.drop 9))
    else c :: subPermanentGo fuel r

def subPermanent (s : Str) : Str := subPermanentGo s.length s

/-- Full-string match of `^Retain[\s\.]*$` (case-insensitive). -/
def retainEmptyMatch (s : Str) : Bool :=
  ciLeads ("retain".toList) s && (s.drop 6).all (fun c => isWS c || c = '.')

/-- At a position starting with `then` (no word boundary in the
pattern!), require at least one whitespace character and return the
group `(.*)`: the rest of the string after the maximal whitespace
run. -/
def thenTail (t : Str) : Option Str :=
  if ciLeads ("then".toList) t then
    match t.drop 4 with
    | c :: r => if isWS c then some ((c :: r).dropWhile isWS) else none
    | [] => none
  else none

/-- Leftmost match of `(?:,\s*)?then\s+(.*)` (case-insensitive):
returns the start index of group 0 (which extends to the end of the
string) and group 1. -/
def findThenGo : Nat → Str → Option (Nat × Str)
  | _, [] => none
  | i, c :: r =>
    if c = ',' then
      match thenTail (r.dropWhile isWS) with
      | some g1 => some (i, g1)
      | none => findThenGo (i + 1) r
    else
      match thenTail (c :: r) with
      | some g1 => some (i, g1)
      | none => findThenGo (i + 1) r

def findThen (s : Str) : Option (Nat × Str) :=
  findThenGo 0 s

/-- Match of `\.?\s*OAKS:` at the current position (the trailing `.*`
extends the match to the end of the string). -/
def oaksAt (t : Str) : Bool :=
  let t1 := match t with
    | c :: r => if c = '.' then r else c :: r
    | [] => []
  ciLeads ("OAKS:".toList) (t1.dropWhile isWS)

/-- Leftmost start index of `\.?\s*OAKS:.*`. -/
def findOaksGo : Nat → Str → Option Nat
  | _, [] => none
  | i, c :: r => if oaksAt (c :: r) then some i else findOaksGo (i + 1) r

def findOaks (s : Str) : Option Nat :=
  findOaksGo 0 s

/-- Python `s.replace(pat, repl)`: replace all non-overlapping leftmost
occurrences (exact, case-sensitive).  An empty pattern leaves the
string unchanged; the pipeline never calls it with one.  The fuel
argument only bounds the recursion; every step consumes at least one
character, so starting it at the string length makes the out-of-fuel
branch unreachable. -/
def replaceAllGo (pat repl : Str) : Nat → Str → Str
  | _, [] => []
  | 0, s => s
  | fuel + 1, c :: r =>
    if pat.isPrefixOf (c :: r) ∧ pat ≠ [] then
      repl ++ replaceAllGo pat repl fuel (r.drop (pat.length - 1))
    else c :: replaceAllGo pat repl fuel r

def replaceAll (pat repl : Str) (s : Str) : Str :=
  replaceAllGo pat repl s.length s

/-- One alternative of the word-number pattern
`\b(one|...|sixteen)\b\s*year` tried at a position: the words are tried
in lexicon order, each requiring its trailing boundary and the `year`
continuation. -/
def wordNumAt (t : Str) : Option Nat :=
  WORD_TO_NUM.findSome? fun p =>
    if ciLeads p.1 t && wbAfter (t.drop p.1.length) &&
        ciLeads ("year".toList) ((t.drop p.1.length).dropWhile isWS) then
      some p.2
    else none

def findWordNumGo : Bool → Str → Option Nat
  | _, [] => none
  | prevOk, c :: r =>
    match (if prevOk then wordNumAt (c :: r) else none) with
    | some n => some n
    | none => findWordNumGo (!isWordChar c) r

def findWordNum (s : Str) : Option Nat :=
  findWordNumGo true s

/-- Length of the maximal digit run at the head of the string. -/
def digitsLen (t : Str) : Nat :=
  (t.takeWhile Char.isDigit).length

/-- Match length of `ORC\s*\d+\.\d+` at the current position. -/
def orcAt (t : Str) : Option Nat :=
  if ciLeads ("ORC".toList) t then
    let t1 := t.drop 3
    let w := (t1.takeWhile isWS).length
    let t2 := t1.dropWhile isWS
    let d1 := digitsLen t2
    if d1 = 0 then none
    else
      match t2.drop d1 with
      | '.' :: t3 =>
        let d2 := digitsLen t3
        if d2 = 0 then none else some (3 + w + d1 + 1 + d2)
      | _ => none
  else none

/-- Match length of `\d+\s*KW\s*\d+` at the current position. -/
def numKwNumAt (kw : Str) (t : Str) : Option Nat :=
  let d1 := digitsLen t
  if d1 = 0 then none
  else
    let t1 := t.drop d1
    let w1 := (t1.takeWhile isWS).length
    let t2 := t1.dropWhile isWS
    if ciLeads kw t2 then
      let t3 := t2.drop kw.length
      let w2 := (t3.takeWhile isWS).length
      let t4 := t3.dropWhile isWS
      let d2 := digitsLen t4
      if d2 = 0 then none else some (d1 + w1 + kw.length + w2 + d2)
    else none

/-- Alternatives of the Ohio citation pattern
`(\bORC\s*\d+\.\d+|\b\d+\s*CFR\s*\d+|\b\d+\s*USC\s*\d+)` tried at one
position, in order. -/
def ohCitationAt (t : Str) : Option Nat :=
  match orcAt t with
  | some n => some n
  | none =>
    match numKwNumAt ("CFR".toList) t with
    | some n => some n
    | none => numKwNumAt ("USC".toList) t

/-- Leftmost match of the Ohio citation pattern, returning the matched
slice. -/
def findOhCitationGo : Bool → Str → Option Str
  | _, [] => none
  | prevOk, c :: r =>
    match (if prevOk then ohCitationAt (c :: r) else none) with
    | some n => some ((c :: r).take n)
    | none => findOhCitationGo (!isWordChar c) r

def findOhCitation (s : Str) : Option Str :=
  findOhCitationGo true s

/-- Retention-year derivation of the Ohio normalizers: null when
`permanent` occurs in retention or disposition, else the digit-year
match (`digitCI` selects whether `year` is fully case-insensitive, as
in `oh-general.py`, or `[Yy]ear`, as in `oh-specific-process.py`), else
the word-number match. -/
def ohRetentionYears (digitCI : Bool) (retention disposition : Str) : Option Int :=
  if containsCI ("permanent".toList) retention || containsCI ("permanent".toList) disposition then
    none
  else
    match findDigitYearGo digitCI retention with
    | some n => some (Int.ofNat n)
    | none =>
      match findWordNum retention with
      | some n => some (Int.ofNat n)
      | none => none

/-- Ohio-general `clean_record_fields` (`oh-general.py`): permanent
catch, `, then ...` disposition split with OAKS handling, citation
search, retention years and the confidentiality flag. -/
def cleanRecordFieldsOH (record : Rec) : Rec :=
  let title := normSpace record.series_title
  let desc := normSpace record.series_description
  let retention := normSpace record.retention_statement
  let disposition := normSpace record.disposition
  let rd1 :=
    if disposition.isEmpty && containsCI ("permanentl".toList) retention then
      let r1 := trimWS (subPermanent retention)
      let r2 := if retainEmptyMatch r1 then ([] : Str) else trimWS r1
      (r2, "Permanent".toList)
    else (retention, disposition)
  let retention := rd1.1
  let disposition := rd1.2
  let rd2 :=
    if disposition.isEmpty then
      match findThen retention with
      | some (i, g1) =>
        let g0 := retention.drop i
        let extracted := trimWS g1
        let er :=
          match findOaks extracted with
          | some j =>
            let oaks := extracted.drop j
            (trimWS (replaceAll oaks [] extracted), trimWS (replaceAll g0 oaks retention))
          | none => (extracted, trimWS (replaceAll g0 [] retention))
        let extracted := cleanPunct er.1
        let retention := cleanPunct er.2
        let disposition :=
          if containsCI ("archives".toList) extracted &&
              !(containsCI ("possible".toList) extracted || containsCI ("review".toList) extracted) then
            "Permanent".toList
          else capFirst extracted
        (retention, disposition)
      | none => (retention, disposition)
    else (retention, disposition)
  let retention := rd2.1
  let disposition := rd2.2
  let legal_citation :=
    match findOhCitation desc with
    | some m => trimWS m
    | none =>
      match findOhCitation retention with
      | some m => trimWS m
      | none => ([] : Str)
  { record with
    series_title := title
    series_description := desc
    retention_statement := retention
    retention_years := ohRetentionYears true retention disposition
    disposition := disposition
    confidential := baseConfidentialFlag disposition
    legal_citation := legal_citation }

/-- Ohio-specific `clean_record_fields` (`oh-specific-process.py`):
whitespace normalization, citation search, retention years, and the
dialect confidentiality rule that also triggers on `shred`. -/
def cleanRecordFieldsOhSpec (record : Rec) : Rec :=
  let title := normSpace record.series_title
  let desc := normSpace record.series_description
  let retention := normSpace record.retention_statement
  let disposition := normSpace record.disposition
  let legal_citation :=
    match findOhCitation desc with
    | some m => trimWS m
    | none =>
      match findOhCitation retention with
      | some m => trimWS m
      | none => ([] : Str)
  { record with
    series_title := title
    series_description := desc
    retention_statement := retention
    retention_years := ohRetentionYears false retention disposition
    disposition := disposition
    confidential := ohSpecConfidentialFlag disposition
    legal_citation := legal_citation }

/-- Existence of six consecutive digit characters, as matched by
`re.search(r'\d{6}', title)`. -/
def hasSixDigits : Str → Bool
  | [] => false
  | c :: r =>
    (((c :: r).take 6).length == 6 && ((c :: r).take 6).all Char.isDigit) || hasSixDigits r

/-- Per-record scoring loop of `score_records`, threading the running
score and the set of already-seen series ids. -/
def scoreGo : Int → List Str → List Rec → Int
  | score, _, [] => score
  | score, seen, r :: rest =>
    let title := trimWS r.series_title
    let desc := trimWS r.series_description
    let ret := trimWS r.retention_statement
    let sid := r.series_id
    let s1 := if seen.contains sid then score - 20 else score
    let s2 := if title.isEmpty then s1 - 15 else s1
    let s3 := if desc.isEmpty then s2 - 5 else s2
    let s4 := if ret.isEmpty then s3 - 10 else s3
    let s5 := if ciLeads ("this series".toList) title then s4 - 15 else s4
    let s6 := if ciLeads ("documents ".toList) title then s5 - 15 else s5
    let s7 := if !desc.isEmpty && title.isEmpty then s6 - 10 else s6
    let s8 :=
      if containsStr ("COV".toList) title || containsStr ("CFR".toList) title ||
          containsStr ("VAC".toList) title then s7 - 10
      else s7
    let s9 := if hasSixDigits title then s8 - 10 else s8
    let s10 := match r.retention_years with
      | some _ => s9 + 3
      | none => s9
    scoreGo s10 (sid :: seen) rest

/-- Quality scorer `score_records` (identical in `va-pdfs.py` and
`va-gs-pdfs.py`): empty input scores -9999, otherwise 10 per record
minus penalties plus a +3 bonus per non-null `retention_years`. -/
def score_records (records : List Rec) : Int :=
  if records.isEmpty then -9999
  else scoreGo ((records.length : Int) * 10) [] records

/-- Strategy loop of `process_and_evaluate` in `va-pdfs.py`.  The
outcome of each enabled strategy on the document, in priority order, is
given as an `Except` value: `Except.error ()` models the parser raising
an exception, `Except.ok records` its returned record list.  The result
pairs the loop outcome (an uncaught exception propagates as
`Except.error`) with the number of strategies actually attempted. -/
def runArbiter : List (Except Unit (List Rec)) → Int → List Rec →
    Except Unit (Int × List Rec) × Nat
  | [], best_score, best_records => (Except.ok (best_score, best_records), 0)
  | Except.error e :: _, _, _ => (Except.error e, 1)
  | Except.ok records :: rest, best_score, best_records =>
    let score := score_records records
    let best_score1 := if best_score < score then score else best_score
    let best_records1 := if best_score < score then records else best_records
    if 0 < records.length ∧ (records.length : Int) * 10 ≤ score then
      (Except.ok (best_score1, best_records1), 1)
    else
      let next := runArbiter rest best_score1 best_records1
      (next.1, next.2 + 1)

/-- Document-level behaviour of `process_and_evaluate` in `va-pdfs.py`:
the strategy loop runs under the per-document `try`; an exception is
caught and the document yields nothing, and a best score that is ≤ 0 or
an empty best record list also yields nothing. -/
def processAndEvaluate (strats : List (Except Unit (List Rec))) : Option (List Rec) :=
  match (runArbiter strats (-9999) []).1 with
  | Except.error _ => none
  | Except.ok (best_score, best_records) =>
    if best_records.isEmpty ∨ best_score ≤ 0 then none else some best_records

/-- Winner selection of `process_and_evaluate` in `va-gs-pdfs.py`, given
the record lists produced by the table engine and the vertical silo.
The boolean in the result is true when the silo strategy won.  The
document yields nothing only when the selected list is empty. -/
def processAndEvaluateGS (records_via_table records_via_silo : List Rec) :
    Option (List Rec × Bool) :=
  let score_table := score_records records_via_table
  let score_silo := score_records records_via_silo
  let best :=
    if score_table ≤ score_silo ∧ 0 < score_silo then (records_via_silo, true)
    else (records_via_table, false)
  if best.1.isEmpty then none else some best

/-- Positioned word from the layout reader: text plus bounding box. -/
structure PWord where
  text : Str
  x0 : ℚ
  x1 : ℚ
  top : ℚ
  bottom : ℚ
deriving DecidableEq, Repr

/-- Row band of the vertical-silo segmenter: anchor id, y-range and the
three column word lists. -/
structure Band where
  series_id : Str
  y_start : ℚ
  y_end : ℚ
  desc_words : List PWord
  ret_words : List PWord
  disp_words : List PWord
deriving DecidableEq, Repr

/-- Full match of `^\d{6}$`. -/
def isSixDigitId (s : Str) : Bool :=
  s.length == 6 && s.all Char.isDigit

/-- Anchor test of `parse_using_vertical_silo`: x0 within the
identifier column `[g1, g2)` and the trimmed text exactly six digits. -/
def isAnchor (g1 g2 : ℚ) (w : PWord) : Bool :=
  decide (g1 ≤ w.x0) && decide (w.x0 < g2) && isSixDigitId (trimWS w.text)

/-- Stable insertion used to model `anchors.sort(key=lambda x: x['top'])`. -/
def insertTop (w : PWord) : List PWord → List PWord
  | [] => [w]
  | v :: vs => if w.top ≤ v.top then w :: v :: vs else v :: insertTop w vs

def sortByTop : List PWord → List PWord
  | [] => []
  | w :: ws => insertTop w (sortByTop ws)

/-- Band construction from the sorted anchors: `y_start` is the
anchor's top minus the 15-unit title buffer, `y_end` the next anchor's
`y_start`, or the page height for the last anchor. -/
def mkBands (height : ℚ) : List PWord → List Band
  | [] => []
  | a :: rest =>
    { series_id := trimWS a.text
      y_start := a.top - 15
      y_end := match rest with
        | [] => height
        | b :: _ => b.top - 15
      desc_words := []
      ret_words := []
      disp_words := [] } :: mkBands height rest

/-- Bands computed for one page from its filtered words. -/
def pageBands (g1 g2 height : ℚ) (valid_words : List PWord) : List Band :=
  mkBands height (sortByTop (valid_words.filter (isAnchor g1 g2)))

/-- Column dispatch of the segmenter: `x1 < g1` goes to the description
column, `g2 ≤ x0 < g3` to retention, `x0 ≥ g3` to disposition, and any
other word is dropped. -/
def placeWordInColumns (g1 g2 g3 : ℚ) (w : PWord) (band : Band) : Band :=
  if w.x1 < g1 then { band with desc_words := band.desc_words ++ [w] }
  else if g2 ≤ w.x0 ∧ w.x0 < g3 then { band with ret_words := band.ret_words ++ [w] }
  else if g3 ≤ w.x0 then { band with disp_words := band.disp_words ++ [w] }
  else band

/-- Inner band loop: place the word into the first band whose y-range
contains its top; the flag records whether such a band was found (the
source sets `assigned = True` even when the column dispatch drops the
word). -/
def assignInBands (g1 g2 g3 : ℚ) (w : PWord) : List Band → List Band × Bool
  | [] => ([], false)
  | b :: bs =>
    if b.y_start ≤ w.top ∧ w.top < b.y_end then
      (placeWordInColumns g1 g2 g3 w b :: bs, true)
    else
      let p := assignInBands g1 g2 g3 w bs
      (b :: p.1, p.2)

/-- Word-assignment step of `parse_using_vertical_silo` for one
non-anchor word: try the page's bands, else, when the word sits above
the first band and a record is carried over from the previous page,
dispatch it into that open record. -/
def assignWordToBands (g1 g2 g3 : ℚ) (w : PWord) (bands : List Band)
    (current : Option Band) : List Band × Option Band :=
  let p := assignInBands g1 g2 g3 w bands
  if p.2 then (p.1, current)
  else
    match current, bands with
    | some cur, b0 :: _ =>
      if w.top < b0.y_start then (p.1, some (placeWordInColumns g1 g2 g3 w cur))
      else (p.1, current)
    | _, _ => (p.1, current)

/-- Column-index map of `parse_using_table_engine`. -/
structure ColIdx where
  desc : Nat
  id : Nat
  ret : Nat
  disp : Nat
deriving DecidableEq, Repr

def toUpperL (s : Str) : Str :=
  s.map Char.toUpper

/-- Header scan of `parse_using_table_engine`: starting from the
default order, each header cell containing one of the keywords (after
uppercasing) remaps the corresponding column index. -/
def computeColIdxGo : Nat → List Str → ColIdx → ColIdx
  | _, [], c => c
  | i, h :: rest, c =>
    let hUpper := toUpperL h
    let c1 :=
      if containsStr ("DESCRIPTION".toList) hUpper then { c with desc := i }
      else if containsStr ("NUMBER".toList) hUpper then { c with id := i }
      else if containsStr ("RETENTION".toList) hUpper then { c with ret := i }
      else if containsStr ("DISPOSITION".toList) hUpper then { c with disp := i }
      else c
    computeColIdxGo (i + 1) rest c1

def computeColIdx (headers : List Str) : ColIdx :=
  computeColIdxGo 0 headers { desc := 0, id := 1, ret := 2, disp := 3 }

/-- Row-skip threshold `max(col_idx.values())`. -/
def maxColIdx (c : ColIdx) : Nat :=
  max (max c.desc c.id) (max c.ret c.disp)

/-- Raw record whose normalized form is fully populated: no scoring
penalty applies and the retention-years bonus does, so a one-record set
scores 13. -/
def rawGood : Rec :=
  { series_id := "010203".toList
    series_title := "Budget Files".toList
    series_description := "Fiscal year summaries.".toList
    retention_statement := "Retain 3 years".toList
    disposition := "Destruction".toList
    retention_years := none
    confidential := false
    legal_citation := [] }

def recGood : Rec := cleanRecordFieldsVA rawGood

/-- Raw record with an empty description; its normalized form scores
10 - 5 + 3 = 8. -/
def rawA : Rec :=
  { series_id := "111111".toList
    series_title := "Alpha Files".toList
    series_description := []
    retention_statement := "Retain 3 years".toList
    disposition := "Destruction".toList
    retention_years := none
    confidential := false
    legal_citation := [] }

def recA : Rec := cleanRecordFieldsVA rawA

/-- Second empty-description record with a different id and title, also
scoring 8. -/
def rawB : Rec :=
  { series_id := "222222".toList
    series_title := "Beta Files".toList
    series_description := []
    retention_statement := "Retain 4 years".toList
    disposition := "Destruction".toList
    retention_years := none
    confidential := false
    legal_citation := [] }

def recB : Rec := cleanRecordFieldsVA rawB

/-- Raw record whose retention text carries two `Confidential` tokens:
the normalizer excises only the leftmost one per application. -/
def rawConf : Rec :=
  { series_id := "333333".toList
    series_title := "Case Files".toList
    series_description := "Investigative notes".toList
    retention_statement := "Confidential Confidential records".toList
    disposition := []
    retention_years := none
    confidential := false
    legal_citation := [] }

/-- Raw record whose retention text reads `Retain 0 years`. -/
def rawZero : Rec :=
  { series_id := "444444".toList
    series_title := "Temp Files".toList
    series_description := "Drafts.".toList
    retention_statement := "Retain 0 years".toList
    disposition := []
    retention_years := none
    confidential := false
    legal_citation := [] }

/-- Input of the worked normalizer example: retention
`Retain 5 Years, then Destruction.` with empty disposition. -/
def rawThen : Rec :=
  { series_id := "555555".toList
    series_title := "T".toList
    series_description := []
    retention_statement := "Retain 5 Years, then Destruction.".toList
    disposition := []
    retention_years := none
    confidential := false
    legal_citation := [] }

/-- Default header row assumed by the table engine when the first grid
row carries no header keywords. -/
def defaultHeaders : List Str :=
  ["RECORDS SERIES AND DESCRIPTION".toList, "SERIES NUMBER".toList,
   "SCHEDULED RETENTION PERIOD".toList, "DISPOSITION METHOD".toList]

/-- Concrete four-cell grid row. -/
def sampleRow : List Str :=
  ["Budget Files. Consists of ledgers.".toList, "010203".toList,
   "Retain 3 years".toList, "Destruction".toList]

/-- Concrete word overlapping the identifier column for the default
gutters (150, 400, 550): x1 = 300 ≥ 150 and x0 = 200 < 400. -/
def wMid : PWord :=
  { text := "overview".toList, x0 := 200, x1 := 300, top := 100, bottom := 110 }

/-- Concrete band whose y-range contains `wMid`. -/
def bandSample : Band :=
  { series_id := "123456".toList, y_start := 85, y_end := 300,
    desc_words := [], ret_words := [], disp_words := [] }

lemma runArbiter_attempts_pos (strats : List (Except Unit (List Rec)))
    (h : strats ≠ []) (b : Int) (br : List Rec) :
    1 ≤ (runArbiter strats b br).2 := by
  cases strats with
  | nil => exact absurd rfl h
  | cons s rest =>
    cases s with
    | error e => simp [runArbiter]
    | ok records =>
      simp only [runArbiter]
      split
      · simp
      · simp

/-- C1 counterexample: with the strategy list `[exception, good]` the
arbiter attempts only the first strategy and the document yields no
output, whereas replacing the exception by a zero-record result lets
the second strategy win — so a raising strategy is not treated as
having produced zero records, and the exception does abort the attempt
of the remaining strategy. -/
theorem c1_exception_not_treated_as_zero_records :
    processAndEvaluate [Except.error (), Except.ok [recGood]] = none ∧
    (runArbiter [Except.error (), Except.ok [recGood]] (-9999) []).2 = 1 ∧
    processAndEvaluate [Except.ok [], Except.ok [recGood]] = some [recGood] := by
  refine ⟨rfl, rfl, ?_⟩
  decide

/-- C1 (amended): a strategy that raises makes the strategy loop stop
at that strategy — the remaining enabled strategies are not attempted —
and the per-document handler catches the exception, so the document
yields no output instead of propagating the failure. -/
theorem c1_exception_aborts_document (rest : List (Except Unit (List Rec)))
    (best_score : Int) (best_records : List Rec) :
    (runArbiter (Except.error () :: rest) best_score best_records).1 = Except.error () ∧
    (runArbiter (Except.error () :: rest) best_score best_records).2 = 1 ∧
    processAndEvaluate (Except.error () :: rest) = none :=
  ⟨rfl, rfl, rfl⟩

/-- C2 counterexample: a single fully-populated record with non-null
retention years scores 13 ≠ 10 × 1, yet the arbiter stops after the
first strategy (only one of the two strategies is attempted) and keeps
its records. -/
theorem c2_stops_although_score_not_exactly_ten_per_record :
    score_records [recGood] = 13 ∧ ((13 : Int) ≠ 10 * 1) ∧
    (runArbiter [Except.ok [recGood], Except.error ()] (-9999) []).2 = 1 ∧
    processAndEvaluate [Except.ok [recGood], Except.error ()] = some [recGood] := by
  refine ⟨by decide, by decide, by decide, by decide⟩

/-- C2 (amended): for a non-empty candidate followed by at least one
further strategy, the arbiter stops after that candidate exactly when
its score is at least 10 times its record count (the +3 bonus per
record with retention years can push the score above 10 × count);
whenever the score is below 10 × count, arbitration proceeds to the
next enabled strategy. -/
theorem c2_arbiter_stops_iff_score_ge_ten_per_record (records : List Rec)
    (rest : List (Except Unit (List Rec))) (best_score : Int) (best_records : List Rec)
    (h1 : records ≠ []) (h2 : rest ≠ []) :
    (runArbiter (Except.ok records :: rest) best_score best_records).2 = 1 ↔
      (records.length : Int) * 10 ≤ score_records records := by
  have hlen : 0 < records.length := List.length_pos.mpr h1
  by_cases hc : (records.length : Int) * 10 ≤ score_records records
  · have hgoal : (runArbiter (Except.ok records :: rest) best_score best_records).2 = 1 := by
      simp only [runArbiter]
      rw [if_pos ⟨hlen, hc⟩]
    exact iff_of_true hgoal hc
  · have hone := runArbiter_attempts_pos rest h2
    have hgoal : ¬ (runArbiter (Except.ok records :: rest) best_score best_records).2 = 1 := by
      simp only [runArbiter]
      rw [if_neg (fun hand => hc hand.2)]
      have := hone (if best_score < score_records records then score_records records else best_score)
        (if best_score < score_records records then records else best_records)
      omega
    exact iff_of_false hgoal hc

/-- C2 witness: the amended theorem applied to the concrete one-record
candidate `[recGood]` followed by one further strategy. -/
theorem c2_arbiter_stops_iff_score_ge_ten_per_record_witness :
    ([recGood] : List Rec) ≠ [] ∧
    ([Except.error ()] : List (Except Unit (List Rec))) ≠ [] ∧
    (runArbiter [Except.ok [recGood], Except.error ()] (-9999) []).2 = 1 :=
  ⟨by simp, by simp,
    (c2_arbiter_stops_iff_score_ge_ten_per_record [recGood] [Except.error ()] (-9999) []
      (by simp) (by simp)).mpr (by decide)⟩

/-- C3 counterexample: the sequential arbiter of `va-pdfs.py` attempts
the table strategy before the silo strategy and replaces the best
result only on a strictly greater score, so on an exact tie (both
candidates score 8 here, both strategies are attempted) it keeps the
table strategy's records, not the layout-based ones. -/
theorem c3_tie_keeps_table_in_sequential_arbiter :
    score_records [recA] = score_records [recB] ∧
    (runArbiter [Except.ok [recA], Except.ok [recB]] (-9999) []).2 = 2 ∧
    processAndEvaluate [Except.ok [recA], Except.ok [recB]] = some [recA] ∧
    recA ≠ recB := by
  refine ⟨by decide, by decide, by decide, by decide⟩

/-- C3 (amended): in the dual-run comparator of `va-gs-pdfs.py`, an
exact score tie selects the layout-based (vertical-silo) records
provided the tied score is positive; the sequential arbiter of
`va-pdfs.py` instead keeps the earlier table strategy on a tie. -/
theorem c3_gs_positive_tie_prefers_silo (records_via_table records_via_silo : List Rec)
    (h : score_records records_via_silo = score_records records_via_table)
    (hp : 0 < score_records records_via_silo) :
    processAndEvaluateGS records_via_table records_via_silo = some (records_via_silo, true) := by
  have hnil : score_records ([] : List Rec) = -9999 := rfl
  have hne : records_via_silo.isEmpty = false := by
    cases he : records_via_silo.isEmpty
    · rfl
    · exfalso
      rw [List.isEmpty_iff.mp he, hnil] at hp
      exact absurd hp (by decide)
  have hcond : score_records records_via_table ≤ score_records records_via_silo ∧
      0 < score_records records_via_silo := ⟨le_of_eq h.symm, hp⟩
  simp only [processAndEvaluateGS, if_pos hcond]
  simp [hne]

/-- C3 witness: the amended theorem applied to the concrete tied
candidates `[recA]` and `[recB]`, both scoring 8. -/
theorem c3_gs_positive_tie_prefers_silo_witness :
    processAndEvaluateGS [recA] [recB] = some ([recB], true) :=
  c3_gs_positive_tie_prefers_silo [recA] [recB] (by decide) (by decide)

/-- C4 failing input: the confidentiality-modifier excision removes
only the leftmost `Confidential` token from the retention text but
always removes it when present, so a retention text with two such
tokens loses one per application: the first pass leaves
`Confidential records`, the second strips it further to `records`.
This contradicts the required idempotence of the normalizer. -/
theorem c4_clean_record_fields_not_idempotent :
    (cleanRecordFieldsVA rawConf).retention_statement = "Confidential records".toList ∧
    (cleanRecordFieldsVA (cleanRecordFieldsVA rawConf)).retention_statement = "records".toList ∧
    cleanRecordFieldsVA (cleanRecordFieldsVA rawConf) ≠ cleanRecordFieldsVA rawConf := by
  refine ⟨by decide, by decide, by decide⟩

/-- C5 counterexample: the digit-year regex accepts a zero count, so an
input whose retention text reads `Retain 0 years` is normalized to
`retention_years = 0` by both the Virginia and the Ohio-general
normalizer, contradicting strict positivity. -/
theorem c5_retention_years_can_be_zero :
    (cleanRecordFieldsVA rawZero).retention_years = some 0 ∧
    (cleanRecordFieldsOH rawZero).retention_years = some 0 := by
  refine ⟨by decide, by decide⟩

lemma cleanVA_years_eq (r : Rec) :
    (cleanRecordFieldsVA r).retention_years =
      vaRetentionYears (cleanRecordFieldsVA r).retention_statement
        (cleanRecordFieldsVA r).disposition := rfl

lemma cleanOH_years_eq (r : Rec) :
    (cleanRecordFieldsOH r).retention_years =
      ohRetentionYears true (cleanRecordFieldsOH r).retention_statement
        (cleanRecordFieldsOH r).disposition := rfl

lemma cleanOhSpec_years_eq (r : Rec) :
    (cleanRecordFieldsOhSpec r).retention_years =
      ohRetentionYears false (cleanRecordFieldsOhSpec r).retention_statement
        (cleanRecordFieldsOhSpec r).disposition := rfl

lemma vaRetentionYears_none_or_ofNat (retention disposition : Str) :
    vaRetentionYears retention disposition = none ∨
      ∃ n : Nat, vaRetentionYears retention disposition = some (Int.ofNat n) := by
  unfold vaRetentionYears
  cases findDigitYearGo false retention with
  | none =>
    left
    exact ite_self none
  | some n =>
    right
    exact ⟨n, rfl⟩

lemma ohRetentionYears_none_or_ofNat (ci : Bool) (retention disposition : Str) :
    ohRetentionYears ci retention disposition = none ∨
      ∃ n : Nat, ohRetentionYears ci retention disposition = some (Int.ofNat n) := by
  unfold ohRetentionYears
  split
  · left; rfl
  · cases findDigitYearGo ci retention with
    | some n => right; exact ⟨n, rfl⟩
    | none =>
      cases findWordNum retention with
      | some n => right; exact ⟨n, rfl⟩
      | none => left; rfl

/-- C5 (amended): for every input record, each normalizer variant
yields a `retention_years` that is null or a non-negative integer (the
digit-year group and the word-number lexicon cannot produce a negative
value), but zero is not excluded. -/
theorem c5_retention_years_null_or_nonneg (r : Rec) :
    ((cleanRecordFieldsVA r).retention_years = none ∨
      ∃ n : Nat, (cleanRecordFieldsVA r).retention_years = some (Int.ofNat n)) ∧
    ((cleanRecordFieldsOH r).retention_years = none ∨
      ∃ n : Nat, (cleanRecordFieldsOH r).retention_years = some (Int.ofNat n)) ∧
    ((cleanRecordFieldsOhSpec r).retention_years = none ∨
      ∃ n : Nat, (cleanRecordFieldsOhSpec r).retention_years = some (Int.ofNat n)) := by
  refine ⟨?_, ?_, ?_⟩
  · rw [cleanVA_years_eq]
    exact vaRetentionYears_none_or_ofNat _ _
  · rw [cleanOH_years_eq]
    exact ohRetentionYears_none_or_ofNat _ _ _
  · rw [cleanOhSpec_years_eq]
    exact ohRetentionYears_none_or_ofNat _ _ _

/-- C6 counterexample: the Virginia normalizer has no `, then ...`
split, so on the worked example it merely excises the word
`Destruction`, leaving `Retain 5 Years, then .` as the retention
statement instead of `Retain 5 Years`. -/
theorem c6_va_retention_statement_differs :
    (cleanRecordFieldsVA rawThen).retention_statement = "Retain 5 Years, then .".toList ∧
    (cleanRecordFieldsVA rawThen).retention_statement ≠ "Retain 5 Years".toList := by
  refine ⟨by decide, by decide⟩

/-- C6 (amended): on the input with retention
`Retain 5 Years, then Destruction.` and empty disposition, the
Ohio-general normalizer yields exactly the claimed output — retention
statement `Retain 5 Years`, disposition `Destruction`, retention years
5 — while the Virginia normalizer yields the same disposition and
years but retention statement `Retain 5 Years, then .`. -/
theorem c6_then_destruction_example :
    (cleanRecordFieldsOH rawThen).retention_statement = "Retain 5 Years".toList ∧
    (cleanRecordFieldsOH rawThen).disposition = "Destruction".toList ∧
    (cleanRecordFieldsOH rawThen).retention_years = some 5 ∧
    (cleanRecordFieldsVA rawThen).retention_statement = "Retain 5 Years, then .".toList ∧
    (cleanRecordFieldsVA rawThen).disposition = "Destruction".toList ∧
    (cleanRecordFieldsVA rawThen).retention_years = some 5 := by
  refine ⟨by decide, by decide, by decide, by decide, by decide, by decide⟩

lemma cleanVA_conf_eq (r : Rec) :
    (cleanRecordFieldsVA r).confidential =
      baseConfidentialFlag (cleanRecordFieldsVA r).disposition := rfl

lemma cleanOH_conf_eq (r : Rec) :
    (cleanRecordFieldsOH r).confidential =
      baseConfidentialFlag (cleanRecordFieldsOH r).disposition := rfl

lemma cleanOhSpec_conf_eq (r : Rec) :
    (cleanRecordFieldsOhSpec r).confidential =
      ohSpecConfidentialFlag (cleanRecordFieldsOhSpec r).disposition := rfl

lemma baseConfidentialFlag_iff (d : Str) :
    baseConfidentialFlag d = true ↔
      (containsCI ("confidential".toList) d = true ∧
        containsCI ("non-confidential".toList) d = false) := by
  unfold baseConfidentialFlag
  cases h1 : containsCI ("confidential".toList) d <;>
    cases h2 : containsCI ("non-confidential".toList) d <;> simp

lemma ohSpecConfidentialFlag_iff (d : Str) :
    ohSpecConfidentialFlag d = true ↔
      ((containsCI ("confidential".toList) d = true ∧
          containsCI ("non-confidential".toList) d = false) ∨
        containsCI ("shred".toList) d = true) := by
  unfold ohSpecConfidentialFlag
  cases h1 : containsCI ("confidential".toList) d <;>
    cases h2 : containsCI ("non-confidential".toList) d <;>
      cases h3 : containsCI ("shred".toList) d <;> simp

/-- C7: for every input record, the stored confidential flag of each
normalizer is true exactly when its stored (final) disposition text
contains `confidential` without `non-confidential`, case-insensitively;
the Ohio-specific dialect is additionally true whenever the disposition
contains `shred`. -/
theorem c7_confidential_iff_disposition (r : Rec) :
    ((cleanRecordFieldsVA r).confidential = true ↔
      (containsCI ("confidential".toList) (cleanRecordFieldsVA r).disposition = true ∧
        containsCI ("non-confidential".toList) (cleanRecordFieldsVA r).disposition = false)) ∧
    ((cleanRecordFieldsOH r).confidential = true ↔
      (containsCI ("confidential".toList) (cleanRecordFieldsOH r).disposition = true ∧
        containsCI ("non-confidential".toList) (cleanRecordFieldsOH r).disposition = false)) ∧
    ((cleanRecordFieldsOhSpec r).confidential = true ↔
      ((containsCI ("confidential".toList) (cleanRecordFieldsOhSpec r).disposition = true ∧
          containsCI ("non-confidential".toList) (cleanRecordFieldsOhSpec r).disposition = false) ∨
        containsCI ("shred".toList) (cleanRecordFieldsOhSpec r).disposition = true)) := by
  refine ⟨?_, ?_, ?_⟩
  · rw [cleanVA_conf_eq]
    exact baseConfidentialFlag_iff _
  · rw [cleanOH_conf_eq]
    exact baseConfidentialFlag_iff _
  · rw [cleanOhSpec_conf_eq]
    exact ohSpecConfidentialFlag_iff _

/-- Ordering used to sort anchors: comparison of tops. -/
def topLE (a b : PWord) : Prop := a.top ≤ b.top

lemma mem_insertTop {x w : PWord} : ∀ {l : List PWord}, x ∈ insertTop w l → x = w ∨ x ∈ l := by
  intro l
  induction l with
  | nil =>
    intro hmem
    simp only [insertTop] at hmem
    exact Or.inl (List.mem_singleton.mp hmem)
  | cons v vs ih =>
    intro hmem
    simp only [insertTop] at hmem
    by_cases hc : w.top ≤ v.top
    · rw [if_pos hc] at hmem
      rcases List.mem_cons.mp hmem with h1 | h1
      · exact Or.inl h1
      · exact Or.inr h1
    · rw [if_neg hc] at hmem
      rcases List.mem_cons.mp hmem with h1 | h1
      · exact Or.inr (List.mem_cons.mpr (Or.inl h1))
      · rcases ih h1 with h2 | h2
        · exact Or.inl h2
        · exact Or.inr (List.mem_cons.mpr (Or.inr h2))

lemma insertTop_pairwise (w : PWord) :
    ∀ {l : List PWord}, l.Pairwise topLE → (insertTop w l).Pairwise topLE := by
  intro l
  induction l with
  | nil =>
    intro _
    simp [insertTop, topLE]
  | cons v vs ih =>
    intro h
    rcases List.pairwise_cons.mp h with ⟨hv, hvs⟩
    simp only [insertTop]
    by_cases hc : w.top ≤ v.top
    · rw [if_pos hc]
      refine List.pairwise_cons.mpr ⟨?_, h⟩
      intro b hb
      rcases List.mem_cons.mp hb with hb | hb
      · rw [hb]
        exact hc
      · exact le_trans hc (hv b hb)
    · rw [if_neg hc]
      refine List.pairwise_cons.mpr ⟨?_, ih hvs⟩
      intro b hb
      rcases mem_insertTop hb with hb | hb
      · rw [hb]
        exact le_of_not_le hc
      · exact hv b hb

lemma sortByTop_pairwise : ∀ l : List PWord, (sortByTop l).Pairwise topLE := by
  intro l
  induction l with
  | nil => simp [sortByTop]
  | cons w ws ih => exact insertTop_pairwise w ih

lemma mem_mkBands {height : ℚ} {b : Band} :
    ∀ {l : List PWord}, b ∈ mkBands height l → ∃ w ∈ l, b.y_start = w.top - 15 := by
  intro l
  induction l with
  | nil =>
    intro h
    simp [mkBands] at h
  | cons a rest ih =>
    intro h
    rcases List.mem_cons.mp h with h | h
    · exact ⟨a, by simp, by rw [h]⟩
    · rcases ih h with ⟨w, hw, hws⟩
      exact ⟨w, by simp [hw], hws⟩

lemma mkBands_pairwise (height : ℚ) :
    ∀ {l : List PWord}, l.Pairwise topLE →
      (mkBands height l).Pairwise (fun b1 b2 => b1.y_start ≤ b2.y_start ∧ b1.y_end ≤ b2.y_start) := by
  intro l
  induction l with
  | nil =>
    intro _
    simp [mkBands]
  | cons a rest ih =>
    intro h
    rcases List.pairwise_cons.mp h with ⟨ha, hrest⟩
    simp only [mkBands]
    refine List.pairwise_cons.mpr ⟨?_, ih hrest⟩
    intro b hb
    rcases mem_mkBands hb with ⟨w, hw, hws⟩
    cases rest with
    | nil => exact absurd hw (List.not_mem_nil w)
    | cons r0 rtail =>
      have hr0w : r0.top ≤ w.top := by
        rcases List.mem_cons.mp hw with hw1 | hw1
        · rw [hw1]
        · exact (List.pairwise_cons.mp hrest).1 w hw1
      have haw : a.top ≤ w.top := ha w hw
      constructor
      · rw [hws]
        show a.top - 15 ≤ w.top - 15
        linarith
      · rw [hws]
        show r0.top - 15 ≤ w.top - 15
        linarith

/-- C8: for every page of the layout segmenter (any gutters, any page
height, any filtered word list), the computed row bands are ordered by
ascending `y_start`, each earlier band's `y_end` is at most each later
band's `y_start`, and the half-open y-ranges `[y_start, y_end)` are
pairwise disjoint. -/
theorem c8_bands_sorted_and_disjoint (g1 g2 height : ℚ) (valid_words : List PWord) :
    (pageBands g1 g2 height valid_words).Pairwise
      (fun b1 b2 => b1.y_start ≤ b2.y_start ∧ b1.y_end ≤ b2.y_start ∧
        ∀ y : ℚ, ¬(b1.y_start ≤ y ∧ y < b1.y_end ∧ b2.y_start ≤ y ∧ y < b2.y_end)) := by
  have hp := mkBands_pairwise height
    (sortByTop_pairwise (valid_words.filter (isAnchor g1 g2)))
  refine hp.imp ?_
  intro b1 b2 hb
  refine ⟨hb.1, hb.2, ?_⟩
  intro y hy
  rcases hy with ⟨_, h2, h3, _⟩
  have := hb.2
  linarith

lemma colIdx_le_max (c : ColIdx) :
    c.desc ≤ maxColIdx c ∧ c.id ≤ maxColIdx c ∧ c.ret ≤ maxColIdx c ∧ c.disp ≤ maxColIdx c := by
  unfold maxColIdx
  refine ⟨?_, ?_, ?_, ?_⟩
  · exact le_trans (Nat.le_max_left _ _) (Nat.le_max_left _ _)
  · exact le_trans (Nat.le_max_right _ _) (Nat.le_max_left _ _)
  · exact le_trans (Nat.le_max_left _ _) (Nat.le_max_right _ _)
  · exact le_trans (Nat.le_max_right _ _) (Nat.le_max_right _ _)

/-- C9: in the table engine, once a grid row passes the skip guard
(`len(clean_row) <= max(col_idx.values())` fails), each of the four
mapped column indices — identifier, description, retention and
disposition — is strictly below the row length, for every header
arrangement; so the four cell reads never index past the end of the
row. -/
theorem c9_table_row_access_in_bounds (headers : List Str) (row : List Str)
    (h : ¬ row.length ≤ maxColIdx (computeColIdx headers)) :
    (computeColIdx headers).id < row.length ∧
    (computeColIdx headers).desc < row.length ∧
    (computeColIdx headers).ret < row.length ∧
    (computeColIdx headers).disp < row.length := by
  have hm : maxColIdx (computeColIdx headers) < row.length := Nat.lt_of_not_le h
  rcases colIdx_le_max (computeColIdx headers) with ⟨h1, h2, h3, h4⟩
  exact ⟨lt_of_le_of_lt h2 hm, lt_of_le_of_lt h1 hm, lt_of_le_of_lt h3 hm, lt_of_le_of_lt h4 hm⟩

/-- C9 witness: the theorem applied to the default header arrangement
and a concrete four-cell row. -/
theorem c9_table_row_access_in_bounds_witness :
    ¬ sampleRow.length ≤ maxColIdx (computeColIdx defaultHeaders) ∧
    (computeColIdx defaultHeaders).id < sampleRow.length ∧
    (computeColIdx defaultHeaders).desc < sampleRow.length ∧
    (computeColIdx defaultHeaders).ret < sampleRow.length ∧
    (computeColIdx defaultHeaders).disp < sampleRow.length := by
  have h : ¬ sampleRow.length ≤ maxColIdx (computeColIdx defaultHeaders) := by decide
  exact ⟨h, c9_table_row_access_in_bounds defaultHeaders sampleRow h⟩

lemma placeWordInColumns_id_of_mid (g1 g2 g3 : ℚ) (w : PWord)
    (hg : g2 ≤ g3) (hx1 : g1 ≤ w.x1) (hx0 : w.x0 < g2) (band : Band) :
    placeWordInColumns g1 g2 g3 w band = band := by
  unfold placeWordInColumns
  rw [if_neg (not_lt.mpr hx1),
    if_neg (fun hand => absurd hx0 (not_lt.mpr hand.1)),
    if_neg (not_le.mpr (lt_of_lt_of_le hx0 hg))]

lemma assignInBands_fst_of_mid (g1 g2 g3 : ℚ) (w : PWord)
    (hg : g2 ≤ g3) (hx1 : g1 ≤ w.x1) (hx0 : w.x0 < g2) :
    ∀ bs : List Band, (assignInBands g1 g2 g3 w bs).1 = bs := by
  intro bs
  induction bs with
  | nil => rfl
  | cons b rest ih =>
    simp only [assignInBands]
    split
    · simp [placeWordInColumns_id_of_mid g1 g2 g3 w hg hx1 hx0]
    · simp [ih]

/-- C10: a non-anchor word overlapping the identifier column — with
`x1 ≥ g1` and `x0 < g2` — satisfies none of the three column-dispatch
conditions (under the gutter ordering `g2 ≤ g3`), so it is added to no
band's or carried-over record's description, retention or disposition
word list: the whole assignment step leaves the bands and the open
record unchanged. -/
theorem c10_identifier_column_word_dropped (g1 g2 g3 : ℚ) (w : PWord)
    (bands : List Band) (current : Option Band)
    (hg : g2 ≤ g3) (hx1 : g1 ≤ w.x1) (hx0 : w.x0 < g2) :
    (∀ band : Band, placeWordInColumns g1 g2 g3 w band = band) ∧
    assignWordToBands g1 g2 g3 w bands current = (bands, current) := by
  have hplace := placeWordInColumns_id_of_mid g1 g2 g3 w hg hx1 hx0
  have hfst := assignInBands_fst_of_mid g1 g2 g3 w hg hx1 hx0
  refine ⟨hplace, ?_⟩
  cases current with
  | none =>
    cases bands with
    | nil =>
      simp only [assignWordToBands, hfst]
      split <;> rfl
    | cons b0 rest =>
      simp only [assignWordToBands, hfst]
      split <;> rfl
  | some cur =>
    cases bands with
    | nil =>
      simp only [assignWordToBands, hfst]
      split <;> rfl
    | cons b0 rest =>
      simp only [assignWordToBands, hfst]
      split
      · rfl
      · split
        · rw [hplace]
        · rfl

/-- C10 witness: the theorem applied to the default Virginia gutters
(150, 400, 550), a concrete identifier-column word and a concrete band
list containing the word's y-range. -/
theorem c10_identifier_column_word_dropped_witness :
    ((400 : ℚ) ≤ 550 ∧ (150 : ℚ) ≤ wMid.x1 ∧ wMid.x0 < (400 : ℚ)) ∧
    assignWordToBands 150 400 550 wMid [bandSample] none = ([bandSample], none) :=
  ⟨⟨by norm_num, by norm_num [wMid], by norm_num [wMid]⟩,
    (c10_identifier_column_word_dropped 150 400 550 wMid [bandSample] none
      (by norm_num) (by norm_num [wMid]) (by norm_num [wMid])).2⟩

end RecordsMgmt
